import Mathlib

/-!
# Verification of `ocypus-L36-control.py`

A shallow embedding of the Ocypus Iota L36 LCD driver (`src/ocypus-L36-control.py`)
and proofs about its claims.  Python byte buffers become `List Nat`, floats become
`ℚ`, HID device handles become opaque naturals, and the fallible HID calls
(`open_path`, `write`) become an explicit behaviour oracle.

The file is organised as definitions first (the embedding of the program),
then theorems (the claims and their supporting lemmas).
-/

namespace Ocypus

/-! ## Definitions: constants and the data model -/

/-- `REPORT_ID = 0x07` (line 34 of the source). -/
def REPORT_ID : Nat := 0x07

/-- `REPORT_LENGTH = 64` (line 35 of the source). -/
def REPORT_LENGTH : Nat := 64

/-- `KEEPALIVE_INTERVAL = 2.0` seconds (line 38 of the source). -/
def KEEPALIVE_INTERVAL : ℚ := 2

/-- `DEFAULT_REFRESH_RATE = 1.0` seconds (line 37 of the source). -/
def DEFAULT_REFRESH_RATE : ℚ := 1

/-- One entry of `hid.enumerate(VID, PID)`: the fields the program reads.
`interface_number` and `usage_page` are integers, `path` is an opaque byte
string modelled as an opaque natural.  Every field is optional because the
Python code accesses them with `d.get(...)`, which yields `None` when absent. -/
structure Candidate where
  interface_number : Option ℤ
  path : Option ℕ
  usage_page : Option ℤ
  usage : Option ℤ
deriving DecidableEq, Repr

/-- The addressing key `(d.get("interface_number"), d.get("path"))` used by
`_unique_devices`, available only when both fields are present. -/
def mkey (d : Candidate) : Option (ℤ × ℕ) :=
  match d.interface_number, d.path with
  | some i, some p => some (i, p)
  | _, _ => none

/-! ## Definitions: report codec -/

/-- Integer clamp `max(0, min(999, v))` performed by `_build_display_report`
(line 95 of the source). -/
def clamp999 (v : ℤ) : ℤ := max 0 (min 999 v)

/-- `OcypusController._build_display_report` (lines 83–106): clamp the value to
[0, 999], split into hundreds / tens / ones, and lay the bytes out as
`[REPORT_ID, 0xFF, 0xFF, h, t, o, 0, …, 0]` of total length `REPORT_LENGTH`.
The buffer is built exactly as the Python does: a `REPORT_ID` byte followed by
`REPORT_LENGTH - 1` zeros, then indices 1–5 are overwritten. -/
def buildDisplayReport (value_int : ℤ) : List ℕ :=
  let v : ℕ := (clamp999 value_int).toNat
  let h := v / 100
  let t := (v % 100) / 10
  let o := v % 10
  let report := REPORT_ID :: List.replicate (REPORT_LENGTH - 1) 0
  ((((report.set 1 0xFF).set 2 0xFF).set 3 h).set 4 t).set 5 o

/-- The shape of a well-formed display report for an in-range value `v`:
correct length, identifier byte, the two marker bytes, three digit bytes that
decompose `v` in decimal, and zero padding everywhere else. -/
def reportSpec (v : ℤ) : Prop :=
  (buildDisplayReport v).length = REPORT_LENGTH ∧
  (buildDisplayReport v)[0]? = some REPORT_ID ∧
  (buildDisplayReport v)[1]? = some 0xFF ∧
  (buildDisplayReport v)[2]? = some 0xFF ∧
  (∃ h t o : ℕ,
    (buildDisplayReport v)[3]? = some h ∧
    (buildDisplayReport v)[4]? = some t ∧
    (buildDisplayReport v)[5]? = some o ∧
    h ≤ 9 ∧ t ≤ 9 ∧ o ≤ 9 ∧ ((h * 100 + t * 10 + o : ℕ) : ℤ) = v) ∧
  (∀ i, 6 ≤ i → i < REPORT_LENGTH → (buildDisplayReport v)[i]? = some 0)

/-! ## Definitions: candidate ordering (`_sorted_candidates`) -/

/-- The sort key of `OcypusController._sorted_candidates` (lines 75–79):
`(1 if usage_page >= 0xFF00 else 0, interface_number)`.  The Python
`d.get(...) or 0` turns both a missing field and a literal `0` into `0`,
which is exactly `Option.getD 0`. -/
def score (d : Candidate) : ℤ × ℤ :=
  let up := d.usage_page.getD 0
  let iface := d.interface_number.getD 0
  ((if 0xFF00 ≤ up then 1 else 0), iface)

/-- Lexicographic comparison of sort keys, as Python compares tuples. -/
def scoreLe (a b : ℤ × ℤ) : Prop :=
  a.1 < b.1 ∨ (a.1 = b.1 ∧ a.2 ≤ b.2)

instance (a b : ℤ × ℤ) : Decidable (scoreLe a b) := by
  unfold scoreLe
  infer_instance

/-- Stable insertion into a list that is already sorted by descending key:
the new element goes in front of the first element whose key does not exceed
its own, so among equal keys earlier input elements stay earlier. -/
def insertByScore (x : Candidate) : List Candidate → List Candidate
  | [] => [x]
  | y :: ys =>
    if scoreLe (score y) (score x) then x :: y :: ys
    else y :: insertByScore x ys

/-- `OcypusController._sorted_candidates` (lines 69–81):
`sorted(devices, key=score, reverse=True)`, i.e. a stable sort by
descending lexicographic key. -/
def sortedCandidates : List Candidate → List Candidate
  | [] => []
  | x :: xs => insertByScore x (sortedCandidates xs)

/-- Example candidate A of the spec: `usage_page = 0xFF01`, `iface = 1`. -/
def candA : Candidate := ⟨some 1, some 1, some 0xFF01, none⟩

/-- Example candidate B of the spec: `usage_page = 0x0001`, `iface = 5`. -/
def candB : Candidate := ⟨some 5, some 2, some 0x0001, none⟩

/-- Example candidate C of the spec: `usage_page = 0xFF01`, `iface = 3`. -/
def candC : Candidate := ⟨some 3, some 3, some 0xFF01, none⟩

/-! ## Definitions: deduplication (`_unique_devices`)

`_unique_devices` (lines 58–67) fills a Python `dict` keyed by
`(interface_number, path)` and returns `list(uniq.values())`.  A Python dict
is an insertion-ordered map whose assignment `uniq[key] = d` keeps the key at
its first-insertion position but replaces the stored value.  We model it as
an association list with exactly that assignment operation. -/

/-- Python dict assignment `uniq[key] = d`: replace the value at `key` in
place if the key is present, otherwise append the new pair at the end. -/
def dictInsert (k : ℤ × ℕ) (v : Candidate) :
    List ((ℤ × ℕ) × Candidate) → List ((ℤ × ℕ) × Candidate)
  | [] => [(k, v)]
  | (k', v') :: rest =>
    if k' = k then (k, v) :: rest else (k', v') :: dictInsert k v rest

/-- The loop of `_unique_devices`: entries whose `interface_number` or `path`
is missing are skipped (`continue`), the rest are assigned into the dict. -/
def uniqAux (acc : List ((ℤ × ℕ) × Candidate)) :
    List Candidate → List ((ℤ × ℕ) × Candidate)
  | [] => acc
  | d :: rest =>
    match mkey d with
    | some k => uniqAux (dictInsert k d acc) rest
    | none => uniqAux acc rest

/-- `OcypusController._unique_devices` (lines 58–67): `list(uniq.values())`
of the dict built by the loop. -/
def uniqueDevices (devices : List Candidate) : List Candidate :=
  (uniqAux [] devices).map Prod.snd

/-- First dict lookup in an association list (keys are unique in a dict, so
this is the lookup). -/
def alookup (k : ℤ × ℕ) : List ((ℤ × ℕ) × Candidate) → Option Candidate
  | [] => none
  | (k', v) :: rest => if k' = k then some v else alookup k rest

/-- The keys of the entries that carry both addressing fields, in order. -/
def validKeys (devices : List Candidate) : List (ℤ × ℕ) :=
  devices.filterMap mkey

/-- The last enumerated entry whose addressing key is `k`, if any. -/
def lastWith (devices : List Candidate) (k : ℤ × ℕ) : Option Candidate :=
  (devices.filter (fun d => decide (mkey d = some k))).getLast?

/-- First-of-two on options: the combinator behind "a later dict assignment
wins over an earlier one". -/
def ofirst (a b : Option Candidate) : Option Candidate :=
  match a with
  | some x => some x
  | none => b

/-! ## Definitions: temperature conversion and sending -/

/-- Python `s.lower()` restricted to the ASCII names this program handles,
as a list of characters (`Char.toLower` lowers exactly the ASCII range). -/
def strLower (s : String) : List Char := s.toList.map Char.toLower

/-- Python 3 `round()` to an integer: round half to even. -/
def pyRound (q : ℚ) : ℤ :=
  let f := ⌊q⌋
  let r := q - f
  if r < 1/2 then f
  else if 1/2 < r then f + 1
  else if f % 2 = 0 then f else f + 1

/-- The unit conversion of `send_temperature` (lines 183–186):
`celsius * 9 / 5 + 32` when `unit.lower() == "f"`, identity otherwise. -/
def convertTemp (temp_celsius : ℚ) (unit : String) : ℚ :=
  if strLower unit = ['f'] then temp_celsius * 9 / 5 + 32 else temp_celsius

/-- The safety cap `max(0, min(212, value_int))` of `send_temperature`
(line 190). -/
def clamp212 (v : ℤ) : ℤ := max 0 (min 212 v)

/-- The integer finally encoded by `send_temperature` (lines 183–190):
convert, round to nearest (half to even, as Python `round`), clamp. -/
def displayValue (temp_celsius : ℚ) (unit : String) : ℤ :=
  clamp212 (pyRound (convertTemp temp_celsius unit))

/-- The report `send_temperature` passes to `device.write` (line 193). -/
def sendReport (temp_celsius : ℚ) (unit : String) : List ℕ :=
  buildDisplayReport (displayValue temp_celsius unit)

/-- The behaviour of one `device.write(buffer)` call: the hidapi binding can
raise, or return a byte count (possibly non-positive). -/
inductive WriteOutcome where
  | raises
  | returns (n : ℤ)
deriving DecidableEq, Repr

/-- The mutable fields of `OcypusController` (lines 44–47): the open handle
(an opaque natural here), the interface number and the path of the validated
candidate; all `None` when closed. -/
structure Controller where
  device : Option ℕ
  interface_number : Option ℤ
  path : Option ℕ
deriving DecidableEq, Repr

/-- `OcypusController.__init__` (lines 44–47): all fields `None`. -/
def initController : Controller := ⟨none, none, none⟩

/-- `OcypusController.send_temperature` (lines 171–200), parameterised by the
write behaviour `wb` of the open handle.  Returns the Python result, the
buffers passed to `device.write`, and the controller state afterwards.  With
no open handle it prints and returns `False` without writing; otherwise it
writes the encoded report and succeeds iff the write returns a positive
count (a raise or a non-positive count is caught and yields `False`). -/
def send_temperature (wb : List ℕ → WriteOutcome) (s : Controller)
    (temp_celsius : ℚ) (unit : String) : Bool × List (List ℕ) × Controller :=
  match s.device with
  | none => (false, [], s)
  | some _ =>
    let report := sendReport temp_celsius unit
    match wb report with
    | .raises => (false, [report], s)
    | .returns n => (decide (0 < n), [report], s)

/-- The all-zero-after-identifier buffer of `blank_display` (line 214). -/
def blankReport : List ℕ := REPORT_ID :: List.replicate (REPORT_LENGTH - 1) 0

/-- `OcypusController.blank_display` (lines 202–221): same contract as
`send_temperature` but writing the blank buffer. -/
def blank_display (wb : List ℕ → WriteOutcome) (s : Controller) :
    Bool × List (List ℕ) × Controller :=
  match s.device with
  | none => (false, [], s)
  | some _ =>
    match wb blankReport with
    | .raises => (false, [blankReport], s)
    | .returns n => (decide (0 < n), [blankReport], s)

/-- `OcypusController.close` (lines 159–169): if a handle is open, close it
and reset all three fields to `None`; otherwise do nothing. -/
def closeController (s : Controller) : Controller :=
  match s.device with
  | some _ => ⟨none, none, none⟩
  | none => s

/-- The implicit invariant of the controller fields: either all three are
`None` (closed) or all three are set (open). -/
def coherent (s : Controller) : Prop :=
  (s.device = none ∧ s.interface_number = none ∧ s.path = none) ∨
  (s.device ≠ none ∧ s.interface_number ≠ none ∧ s.path ≠ none)

/-! ## Definitions: opening the device (`OcypusController.open`) -/

/-- The per-candidate behaviour of the HID layer during `open` (lines
124–133): whether `hid.device().open_path(path)` succeeds for this
candidate, and what the validating `device.write(probe)` does. -/
structure HidBeh where
  openOk : Candidate → Bool
  write : Candidate → List ℕ → WriteOutcome

/-- The error recorded in `last_err` for a failed candidate attempt. -/
inductive OpenErr where
  | openFailed
  | writeRaised
  | writeBad (n : ℤ)
deriving DecidableEq, Repr

/-- One candidate attempt of `open` (lines 124–152): open the path, then
write the probe report `_build_display_report(0)`; `none` means the
candidate validated (write returned a positive count), otherwise the error
that was caught. -/
def probeAttempt (beh : HidBeh) (c : Candidate) : Option OpenErr :=
  if beh.openOk c then
    match beh.write c (buildDisplayReport 0) with
    | .raises => some .writeRaised
    | .returns n => if 0 < n then none else some (.writeBad n)
  else some .openFailed

/-- Whether a candidate carries both addressing fields (the loop `continue`s
otherwise, lines 119–122). -/
def validC (c : Candidate) : Bool :=
  c.interface_number.isSome && c.path.isSome

/-- Whether `open` would succeed on this candidate: fields present and the
probe attempt validates. -/
def succB (beh : HidBeh) (c : Candidate) : Bool :=
  validC c && (probeAttempt beh c).isNone

/-- The outcome of `open` (lines 108–157): the distinct "no devices
enumerated" failure, exhaustion of all candidates (with the last recorded
error), or success bound to a candidate's interface number and path. -/
inductive OpenResult where
  | deviceNotFound
  | noWorking (lastErr : Option OpenErr)
  | connected (iface : ℤ) (path : ℕ)
deriving DecidableEq, Repr

/-- The candidate loop of `open` (lines 117–157).  The second component is
the list of handles still open afterwards: a failing candidate's handle is
closed in the `except` block, so only a successful candidate's handle
remains. -/
def openGo (beh : HidBeh) :
    List Candidate → Option OpenErr → OpenResult × List ℕ
  | [], lastErr => (.noWorking lastErr, [])
  | c :: rest, lastErr =>
    match c.interface_number, c.path with
    | some i, some p =>
      match probeAttempt beh c with
      | none => (.connected i p, [p])
      | some e => openGo beh rest (some e)
    | _, _ => openGo beh rest lastErr

/-- `OcypusController.open` (lines 108–157): fail outright if enumeration is
empty, otherwise run the candidate loop over the deduplicated, sorted
candidates. -/
def openModel (beh : HidBeh) (devices : List Candidate) :
    OpenResult × List ℕ :=
  if devices = [] then (.deviceNotFound, [])
  else openGo beh (sortedCandidates (uniqueDevices devices)) none

/-- The error `open` reports after exhausting the candidates: the error of
the last candidate that was actually attempted (skipped candidates record
nothing).  The success branch of the fold is never taken when no candidate
succeeds. -/
def lastErrList (beh : HidBeh) (cs : List Candidate)
    (init : Option OpenErr) : Option OpenErr :=
  cs.foldl (fun le c =>
    if validC c then
      match probeAttempt beh c with
      | some e => some e
      | none => le
    else le) init

/-- `open` as a transformer of the controller state (assignments on lines
135–137): the fields are set only on success, and left untouched on any
failure. -/
def openController (beh : HidBeh) (devices : List Candidate)
    (s : Controller) : Controller × Bool :=
  match (openModel beh devices).1 with
  | .connected i p => (⟨some p, some i, some p⟩, true)
  | _ => (s, false)

/-! ## Definitions: sensor lookup and the display loop -/

/-- One psutil reading: the program only reads `.current`. -/
structure Reading where
  current : ℚ
deriving DecidableEq, Repr

/-- Python `sub in l` on character lists: contiguous-substring test. -/
def listContainsB (sub : List Char) : List Char → Bool
  | [] => sub.isEmpty
  | c :: t => sub.isPrefixOf (c :: t) || listContainsB sub t

/-- The match test of `find_sensor_by_substring` (line 243):
`substring.lower() in sensor_name.lower()`. -/
def sensorMatches (substring sensor_name : String) : Bool :=
  listContainsB (strLower substring) (strLower sensor_name)

/-- `find_sensor_by_substring` (lines 237–245): scan the sensor mapping in
iteration order and return the first group whose name matches and whose
reading list is non-empty, paired with its first reading's current value. -/
def find_sensor_by_substring (sensors : List (String × List Reading))
    (substring : String) : Option (String × ℚ) :=
  match sensors with
  | [] => none
  | (sensor_name, sensor_list) :: rest =>
    match sensor_list, sensorMatches substring sensor_name with
    | r :: _, true => some (sensor_name, r.current)
    | _, _ => find_sensor_by_substring rest substring

/-- One iteration of `run_display_loop` (lines 271–292), at time `tick.1`
with sensor snapshot `tick.2`, carrying the `last_keepalive` timer.  If a
sensor matches, its temperature is sent; otherwise a keepalive
`send_temperature(0, unit)` happens only once the elapsed time reaches
`KEEPALIVE_INTERVAL`, and then the timer resets to the current time.
Returns the buffers written this tick and the updated timer. -/
def displayTick (substring unit : String)
    (tick : ℚ × List (String × List Reading)) (last_keepalive : ℚ) :
    List (List ℕ) × ℚ :=
  match find_sensor_by_substring tick.2 substring with
  | some (_, temp_celsius) => ([sendReport temp_celsius unit], last_keepalive)
  | none =>
    if KEEPALIVE_INTERVAL ≤ tick.1 - last_keepalive then
      ([sendReport 0 unit], tick.1)
    else ([], last_keepalive)

/-- `run_display_loop` (lines 264–299) over a finite schedule of ticks:
threads the keepalive timer through `displayTick` and concatenates the
written buffers.  The initial timer is `time.time()` taken just before the
loop (line 269). -/
def runTicks (substring unit : String) :
    List (ℚ × List (String × List Reading)) → ℚ → List (List ℕ) × ℚ
  | [], last_keepalive => ([], last_keepalive)
  | tick :: rest, last_keepalive =>
    let step := displayTick substring unit tick last_keepalive
    let later := runTicks substring unit rest step.2
    (step.1 ++ later.1, later.2)

/-- A pair of enumerated entries sharing the key `(0, 0)` but with different
usage pages: the first occurrence. -/
def dup1 : Candidate := ⟨some 0, some 0, some 1, none⟩

/-- Same addressing key `(0, 0)` as `dup1`, different usage page: the second
occurrence. -/
def dup2 : Candidate := ⟨some 0, some 0, some 2, none⟩

/-! ## Theorems: report codec (claims C3 and C7) -/

/-- The clamped value written as an explicit cons list: the five `List.set`
operations land on the first six cells of the 64-byte buffer. -/
theorem buildDisplayReport_eq (value_int : ℤ) :
    buildDisplayReport value_int =
      let v : ℕ := (clamp999 value_int).toNat
      REPORT_ID :: 0xFF :: 0xFF :: (v / 100) :: ((v % 100) / 10) :: (v % 10) ::
        List.replicate 58 0 := by
  simp only [buildDisplayReport, REPORT_LENGTH]
  norm_num [List.replicate_succ, List.set]

theorem clamp999_of_mem (v : ℤ) (h0 : 0 ≤ v) (h9 : v ≤ 999) : clamp999 v = v := by
  unfold clamp999
  omega

theorem clamp999_nonneg (v : ℤ) : 0 ≤ clamp999 v := by
  unfold clamp999
  omega

theorem clamp999_le (v : ℤ) : clamp999 v ≤ 999 := by
  unfold clamp999
  omega

theorem buildDisplayReport_congr (a b : ℤ) (h : clamp999 a = clamp999 b) :
    buildDisplayReport a = buildDisplayReport b := by
  simp only [buildDisplayReport, h]

/-- C3: for every integer `v` with `0 ≤ v ≤ 999`, `_build_display_report(v)`
returns a buffer of exactly `REPORT_LENGTH` (64) bytes with byte 0 equal to
the report identifier `0x07`, bytes 1 and 2 equal to the marker `0xFF`,
bytes 3, 4, 5 equal to the hundreds, tens and ones digits of `v` (each in
`[0, 9]`, recombining to `v`), and all remaining bytes zero. -/
theorem buildDisplayReport_in_range_spec (v : ℤ) (h0 : 0 ≤ v) (h9 : v ≤ 999) :
    reportSpec v := by
  have hc : clamp999 v = v := clamp999_of_mem v h0 h9
  have hv : ((clamp999 v).toNat : ℤ) = v := by rw [hc]; omega
  rw [reportSpec, buildDisplayReport_eq]
  simp only []
  set n : ℕ := (clamp999 v).toNat with hn
  have hn9 : n ≤ 999 := by omega
  refine ⟨by simp [REPORT_LENGTH], by simp [REPORT_ID], by simp, by simp, ?_, ?_⟩
  · refine ⟨n / 100, n % 100 / 10, n % 10, by simp, by simp, by simp, ?_, ?_, ?_, ?_⟩
    · omega
    · omega
    · omega
    · push_cast
      omega
  · intro i h6 h64
    obtain ⟨j, rfl⟩ : ∃ j, i = j + 6 := ⟨i - 6, by omega⟩
    have hj : j < 58 := by
      simp only [REPORT_LENGTH] at h64
      omega
    show (([REPORT_ID, 0xFF, 0xFF, n / 100, n % 100 / 10, n % 10] ++
      List.replicate 58 0 : List ℕ))[j + 6]? = some 0
    rw [List.getElem?_append_right (by simp)]
    have hix : j + 6 - List.length
        [REPORT_ID, 0xFF, 0xFF, n / 100, n % 100 / 10, n % 10] = j := by simp
    rw [hix, List.getElem?_replicate, if_pos hj]

/-- Witness: the in-range report specification evaluated at `v = 45`. -/
theorem buildDisplayReport_in_range_spec_witness : reportSpec 45 :=
  buildDisplayReport_in_range_spec 45 (by norm_num) (by norm_num)

/-- C7: below-range values encode like 0, above-range values encode like 999,
and the `[0, 999]` clamp of `_build_display_report` is idempotent. -/
theorem buildDisplayReport_clamping :
    (∀ v : ℤ, v < 0 → buildDisplayReport v = buildDisplayReport 0) ∧
    (∀ v : ℤ, 999 < v → buildDisplayReport v = buildDisplayReport 999) ∧
    (∀ v : ℤ, clamp999 (clamp999 v) = clamp999 v) := by
  refine ⟨?_, ?_, ?_⟩
  · intro v hv
    apply buildDisplayReport_congr
    unfold clamp999
    omega
  · intro v hv
    apply buildDisplayReport_congr
    unfold clamp999
    omega
  · intro v
    unfold clamp999
    omega

/-- Witness: the clamping facts of C7 at `v = -5` and `v = 1000`. -/
theorem buildDisplayReport_clamping_witness :
    buildDisplayReport (-5) = buildDisplayReport 0 ∧
    buildDisplayReport 1000 = buildDisplayReport 999 ∧
    clamp999 (clamp999 (-5)) = clamp999 (-5) :=
  ⟨buildDisplayReport_clamping.1 (-5) (by norm_num),
   buildDisplayReport_clamping.2.1 1000 (by norm_num),
   buildDisplayReport_clamping.2.2 (-5)⟩

/-! ## Theorems: candidate ordering (claim C6) -/

theorem scoreLe_total (a b : ℤ × ℤ) : scoreLe a b ∨ scoreLe b a := by
  unfold scoreLe
  omega

theorem scoreLe_trans (a b c : ℤ × ℤ) (h1 : scoreLe a b) (h2 : scoreLe b c) :
    scoreLe a c := by
  unfold scoreLe at *
  omega

theorem insertByScore_perm (x : Candidate) (l : List Candidate) :
    (insertByScore x l).Perm (x :: l) := by
  induction l with
  | nil => exact List.Perm.refl _
  | cons y ys ih =>
    unfold insertByScore
    split
    · exact List.Perm.refl _
    · exact (ih.cons y).trans (List.Perm.swap x y ys)

theorem sortedCandidates_perm (l : List Candidate) :
    (sortedCandidates l).Perm l := by
  induction l with
  | nil => exact List.Perm.refl _
  | cons x xs ih =>
    exact (insertByScore_perm x (sortedCandidates xs)).trans (ih.cons x)

theorem insertByScore_pairwise (x : Candidate) (l : List Candidate)
    (h : l.Pairwise (fun a b => scoreLe (score b) (score a))) :
    (insertByScore x l).Pairwise (fun a b => scoreLe (score b) (score a)) := by
  induction l with
  | nil => simp [insertByScore]
  | cons y ys ih =>
    rw [List.pairwise_cons] at h
    unfold insertByScore
    split
    · rename_i hyx
      refine List.pairwise_cons.2 ⟨?_, List.pairwise_cons.2 h⟩
      intro z hz
      rcases List.mem_cons.1 hz with rfl | hz'
      · exact hyx
      · exact scoreLe_trans _ _ _ (h.1 z hz') hyx
    · rename_i hyx
      refine List.pairwise_cons.2 ⟨?_, ih h.2⟩
      intro z hz
      have hz' := (insertByScore_perm x ys).mem_iff.1 hz
      rcases List.mem_cons.1 hz' with rfl | hzys
      · rcases scoreLe_total (score y) (score z) with hc | hc
        · exact absurd hc hyx
        · exact hc
      · exact h.1 z hzys

/-- C6: `_sorted_candidates` orders every candidate list by the boolean
"usage_page ≥ 0xFF00" as primary key (true first) and higher
interface_number as secondary key — formally, the output is a permutation
of the input that is pairwise sorted by descending lexicographic
`score` — and on the spec's examples A(0xFF01, 1) sorts before
B(0x0001, 5), and C(0xFF01, 3) sorts before A(0xFF01, 1). -/
theorem sortedCandidates_spec :
    (∀ devices : List Candidate,
      (sortedCandidates devices).Pairwise
        (fun a b => scoreLe (score b) (score a)) ∧
      (sortedCandidates devices).Perm devices) ∧
    sortedCandidates [candA, candB] = [candA, candB] ∧
    sortedCandidates [candB, candA] = [candA, candB] ∧
    sortedCandidates [candA, candC] = [candC, candA] ∧
    sortedCandidates [candC, candA] = [candC, candA] := by
  refine ⟨fun devices => ⟨?_, sortedCandidates_perm devices⟩, ?_, ?_, ?_, ?_⟩
  · induction devices with
    | nil => simp [sortedCandidates]
    | cons x xs ih => exact insertByScore_pairwise x _ ih
  · decide
  · decide
  · decide
  · decide

/-! ## Theorems: deduplication (claim C1) -/

theorem ofirst_none_right (a : Option Candidate) : ofirst a none = a := by
  cases a <;> rfl

theorem ofirst_assoc (a b c : Option Candidate) :
    ofirst (ofirst a b) c = ofirst a (ofirst b c) := by
  cases a <;> rfl

theorem alookup_dictInsert (k k' : ℤ × ℕ) (v : Candidate)
    (l : List ((ℤ × ℕ) × Candidate)) :
    alookup k' (dictInsert k v l) = if k = k' then some v else alookup k' l := by
  induction l with
  | nil => simp [dictInsert, alookup]
  | cons p rest ih =>
    obtain ⟨a, w⟩ := p
    by_cases hak : a = k
    · subst hak
      by_cases hk' : a = k' <;> simp [dictInsert, alookup, hk']
    · by_cases hk' : a = k'
      · subst hk'
        have : ¬ (k = a) := fun h => hak h.symm
        simp [dictInsert, alookup, hak, this]
      · simp [dictInsert, alookup, hak, hk', ih]

theorem mem_keys_dictInsert (k k' : ℤ × ℕ) (v : Candidate)
    (l : List ((ℤ × ℕ) × Candidate)) :
    k' ∈ (dictInsert k v l).map Prod.fst ↔
      (k' = k ∨ k' ∈ l.map Prod.fst) := by
  induction l with
  | nil => simp [dictInsert]
  | cons p rest ih =>
    obtain ⟨a, w⟩ := p
    by_cases hak : a = k
    · rw [show dictInsert k v ((a, w) :: rest) = (k, v) :: rest from by
        simp only [dictInsert, if_pos hak]]
      subst hak
      simp only [List.map_cons, List.mem_cons]
      tauto
    · rw [show dictInsert k v ((a, w) :: rest) = (a, w) :: dictInsert k v rest from by
        simp only [dictInsert, if_neg hak]]
      simp only [List.map_cons, List.mem_cons, ih]
      tauto

theorem keys_nodup_dictInsert (k : ℤ × ℕ) (v : Candidate)
    (l : List ((ℤ × ℕ) × Candidate)) (h : (l.map Prod.fst).Nodup) :
    ((dictInsert k v l).map Prod.fst).Nodup := by
  induction l with
  | nil => simp [dictInsert]
  | cons p rest ih =>
    obtain ⟨a, w⟩ := p
    simp only [List.map_cons, List.nodup_cons] at h
    by_cases hak : a = k
    · subst hak
      simpa [dictInsert] using h
    · simp only [dictInsert, if_neg hak, List.map_cons, List.nodup_cons]
      refine ⟨?_, ih h.2⟩
      rw [mem_keys_dictInsert]
      rintro (rfl | hmem)
      · exact hak rfl
      · exact h.1 hmem

theorem coherent_dictInsert (k : ℤ × ℕ) (v : Candidate)
    (l : List ((ℤ × ℕ) × Candidate)) (hv : mkey v = some k)
    (h : ∀ p ∈ l, mkey p.2 = some p.1) :
    ∀ p ∈ dictInsert k v l, mkey p.2 = some p.1 := by
  induction l with
  | nil =>
    intro p hp
    simp only [dictInsert, List.mem_singleton] at hp
    subst hp
    exact hv
  | cons q rest ih =>
    obtain ⟨a, w⟩ := q
    intro p hp
    by_cases hak : a = k
    · rw [show dictInsert k v ((a, w) :: rest) = (k, v) :: rest from by
        simp only [dictInsert, if_pos hak]] at hp
      rcases List.mem_cons.1 hp with h1 | h1
      · subst h1
        exact hv
      · exact h p (List.mem_cons_of_mem _ h1)
    · rw [show dictInsert k v ((a, w) :: rest) = (a, w) :: dictInsert k v rest from by
        simp only [dictInsert, if_neg hak]] at hp
      rcases List.mem_cons.1 hp with h1 | h1
      · subst h1
        exact h (a, w) (List.mem_cons_self _ _)
      · exact ih (fun q hq => h q (List.mem_cons_of_mem _ hq)) p h1

theorem getLast?_cons_ofirst (a : Candidate) (l : List Candidate) :
    (a :: l).getLast? = ofirst l.getLast? (some a) := by
  cases l with
  | nil => rfl
  | cons b t =>
    rw [List.getLast?_cons_cons]
    have hs : ((b :: t).getLast?).isSome := by
      rw [List.getLast?_isSome]
      simp
    obtain ⟨x, hx⟩ := Option.isSome_iff_exists.1 hs
    rw [hx]
    rfl

theorem lastWith_cons (d : Candidate) (rest : List Candidate) (k : ℤ × ℕ) :
    lastWith (d :: rest) k =
      ofirst (lastWith rest k) (if mkey d = some k then some d else none) := by
  unfold lastWith
  rw [List.filter_cons]
  by_cases hdk : mkey d = some k
  · rw [if_pos (by simpa using hdk), if_pos hdk]
    exact getLast?_cons_ofirst d _
  · rw [if_neg (by simpa using hdk), if_neg hdk, ofirst_none_right]

theorem alookup_of_mem (l : List ((ℤ × ℕ) × Candidate))
    (hnd : (l.map Prod.fst).Nodup) (p : (ℤ × ℕ) × Candidate) (hp : p ∈ l) :
    alookup p.1 l = some p.2 := by
  induction l with
  | nil => cases hp
  | cons q t ih =>
    obtain ⟨a, w⟩ := q
    simp only [List.map_cons, List.nodup_cons] at hnd
    rcases List.mem_cons.1 hp with rfl | hp'
    · simp [alookup]
    · have ha : a ≠ p.1 := by
        intro h
        exact hnd.1 (h ▸ (List.mem_map.2 ⟨p, hp', rfl⟩))
      simp only [alookup, if_neg ha]
      exact ih hnd.2 hp'

theorem uniqAux_main (devices : List Candidate) :
    ∀ acc : List ((ℤ × ℕ) × Candidate),
    (∀ k, alookup k (uniqAux acc devices) =
      ofirst (lastWith devices k) (alookup k acc)) ∧
    (∀ k, k ∈ (uniqAux acc devices).map Prod.fst ↔
      (k ∈ validKeys devices ∨ k ∈ acc.map Prod.fst)) ∧
    ((acc.map Prod.fst).Nodup → ((uniqAux acc devices).map Prod.fst).Nodup) ∧
    ((∀ p ∈ acc, mkey p.2 = some p.1) →
      ∀ p ∈ uniqAux acc devices, mkey p.2 = some p.1) := by
  induction devices with
  | nil =>
    intro acc
    refine ⟨fun k => ?_, fun k => ?_, fun h => h, fun h => h⟩
    · simp [uniqAux, lastWith, ofirst]
    · simp [uniqAux, validKeys]
  | cons d rest ih =>
    intro acc
    cases hd : mkey d with
    | none =>
      obtain ⟨ih1, ih2, ih3, ih4⟩ := ih acc
      refine ⟨fun k => ?_, fun k => ?_, ?_, ?_⟩
      · rw [show uniqAux acc (d :: rest) = uniqAux acc rest by
          simp [uniqAux, hd]]
        rw [ih1, lastWith_cons]
        have : mkey d ≠ some k := by simp [hd]
        rw [if_neg this, ofirst_none_right]
      · rw [show uniqAux acc (d :: rest) = uniqAux acc rest by
          simp [uniqAux, hd]]
        rw [ih2]
        unfold validKeys
        rw [List.filterMap_cons_none hd]
      · intro h
        rw [show uniqAux acc (d :: rest) = uniqAux acc rest by
          simp [uniqAux, hd]]
        exact ih3 h
      · intro h
        rw [show uniqAux acc (d :: rest) = uniqAux acc rest by
          simp [uniqAux, hd]]
        exact ih4 h
    | some k0 =>
      have hstep : uniqAux acc (d :: rest) = uniqAux (dictInsert k0 d acc) rest := by
        simp [uniqAux, hd]
      obtain ⟨ih1, ih2, ih3, ih4⟩ := ih (dictInsert k0 d acc)
      refine ⟨fun k => ?_, fun k => ?_, ?_, ?_⟩
      · rw [hstep, ih1, alookup_dictInsert, lastWith_cons, ofirst_assoc]
        by_cases hk : k0 = k
        · subst hk
          rw [if_pos rfl, if_pos (by rw [hd])]
          rfl
        · rw [if_neg hk, if_neg (by rw [hd]; simpa using fun h => hk h)]
          rfl
      · rw [hstep, ih2, mem_keys_dictInsert]
        unfold validKeys
        rw [List.filterMap_cons_some hd]
        simp only [List.mem_cons]
        tauto
      · intro h
        rw [hstep]
        exact ih3 (keys_nodup_dictInsert k0 d acc h)
      · intro h
        rw [hstep]
        exact ih4 (coherent_dictInsert k0 d acc hd h)

theorem filterMap_snd_eq_keys (l : List ((ℤ × ℕ) × Candidate))
    (h : ∀ p ∈ l, mkey p.2 = some p.1) :
    (l.map Prod.snd).filterMap mkey = l.map Prod.fst := by
  induction l with
  | nil => rfl
  | cons p t ih =>
    rw [List.map_cons, List.filterMap_cons_some (h p (List.mem_cons_self _ _)),
      List.map_cons, ih (fun q hq => h q (List.mem_cons_of_mem _ hq))]

/-- C1 as corrected: `_unique_devices` returns exactly one entry per distinct
(interface_number, path) pair, discards every entry missing either field, and
for duplicate keys keeps the LAST enumerated occurrence (the Python dict
assignment overwrites the stored value). -/
theorem uniqueDevices_amended_spec (devices : List Candidate) :
    (∀ e ∈ uniqueDevices devices, mkey e ≠ none) ∧
    ((uniqueDevices devices).filterMap mkey).Nodup ∧
    (∀ k, k ∈ validKeys devices ↔ k ∈ (uniqueDevices devices).filterMap mkey) ∧
    (∀ e ∈ uniqueDevices devices, ∀ k, mkey e = some k →
      lastWith devices k = some e) := by
  obtain ⟨h1, h2, h3, h4⟩ := uniqAux_main devices []
  have hco : ∀ p ∈ uniqAux [] devices, mkey p.2 = some p.1 := h4 (by simp)
  have hnd : ((uniqAux [] devices).map Prod.fst).Nodup := h3 (by simp)
  have hkeys : (uniqueDevices devices).filterMap mkey =
      (uniqAux [] devices).map Prod.fst :=
    filterMap_snd_eq_keys _ hco
  refine ⟨?_, ?_, ?_, ?_⟩
  · intro e he
    obtain ⟨p, hp, rfl⟩ := List.mem_map.1 he
    rw [hco p hp]
    simp
  · rw [hkeys]
    exact hnd
  · intro k
    rw [hkeys]
    have := h2 k
    simp only [List.map_nil, List.not_mem_nil, or_false] at this
    exact this.symm
  · intro e he k hk
    obtain ⟨p, hp, rfl⟩ := List.mem_map.1 he
    have hpk : p.1 = k := by
      have := hco p hp
      rw [this] at hk
      exact Option.some.inj hk
    have hlook : alookup k (uniqAux [] devices) = some p.2 := by
      rw [← hpk]
      exact alookup_of_mem _ hnd p hp
    have := h1 k
    rw [hlook] at this
    cases hlw : lastWith devices k with
    | none =>
      rw [hlw] at this
      simp [ofirst, alookup] at this
    | some x =>
      rw [hlw] at this
      simp only [ofirst] at this
      rw [← this]

/-- Witness: on the two-element duplicate list `[dup1, dup2]`, the surviving
entry `dup2` has a present key and is the last occurrence of its key. -/
theorem uniqueDevices_amended_spec_witness :
    mkey dup2 ≠ none ∧ lastWith [dup1, dup2] (0, 0) = some dup2 :=
  ⟨(uniqueDevices_amended_spec [dup1, dup2]).1 dup2 (by decide),
   (uniqueDevices_amended_spec [dup1, dup2]).2.2.2 dup2 (by decide) (0, 0)
     (by decide)⟩

/-- Counterexample to C1 as stated: `dup1` and `dup2` share the addressing
key `(0, 0)` but differ in usage_page, and `_unique_devices [dup1, dup2]`
returns the SECOND occurrence, not the first. -/
theorem uniqueDevices_first_occurrence_false :
    uniqueDevices [dup1, dup2] ≠ [dup1] ∧
    uniqueDevices [dup1, dup2] = [dup2] := by
  constructor
  · decide
  · decide

/-! ## Theorems: temperature conversion (claim C4) -/

theorem strLower_f : strLower "f" = ['f'] := by decide

theorem writeStep_trace (w : WriteOutcome) (r : List ℕ) (s : Controller) :
    (match w with
     | WriteOutcome.raises => (false, [r], s)
     | WriteOutcome.returns n => (decide (0 < n), [r], s)).2.1 = [r] := by
  cases w <;> rfl

theorem displayValue_zero_f : displayValue 0 "f" = 32 := by
  have h1 : convertTemp 0 "f" = 32 := by
    rw [convertTemp, if_pos strLower_f]
    norm_num
  rw [displayValue, h1]
  have h2 : pyRound 32 = 32 := by norm_num [pyRound]
  rw [h2]
  decide

theorem displayValue_hundred_f : displayValue 100 "f" = 212 := by
  have h1 : convertTemp 100 "f" = 212 := by
    rw [convertTemp, if_pos strLower_f]
    norm_num
  rw [displayValue, h1]
  have h2 : pyRound 212 = 212 := by norm_num [pyRound]
  rw [h2]
  decide

/-- C4: on an open connection, `send_temperature` writes the report for the
celsius value converted (`× 9/5 + 32` exactly when the unit lowercases to
"f", identity otherwise), rounded to the nearest integer (ties to even, as
Python `round`) and clamped to `[0, 212]`; in particular 0 °C in Fahrenheit
mode encodes 32, 100 °C encodes 212, and rounded values above 212 or below
0 encode 212 and 0 respectively. -/
theorem send_temperature_conversion (wb : List ℕ → WriteOutcome)
    (s : Controller) (hs : s.device ≠ none) (temp_celsius : ℚ) (unit : String) :
    (send_temperature wb s temp_celsius unit).2.1 =
      [buildDisplayReport (clamp212 (pyRound (convertTemp temp_celsius unit)))] ∧
    (strLower unit = ['f'] →
      convertTemp temp_celsius unit = temp_celsius * 9 / 5 + 32) ∧
    (strLower unit ≠ ['f'] → convertTemp temp_celsius unit = temp_celsius) ∧
    (unit = "c" → convertTemp temp_celsius unit = temp_celsius) ∧
    displayValue 0 "f" = 32 ∧
    displayValue 100 "f" = 212 ∧
    (212 < pyRound (convertTemp temp_celsius unit) →
      displayValue temp_celsius unit = 212) ∧
    (pyRound (convertTemp temp_celsius unit) < 0 →
      displayValue temp_celsius unit = 0) := by
  obtain ⟨d, hd⟩ := Option.ne_none_iff_exists'.1 hs
  refine ⟨?_, ?_, ?_, ?_, displayValue_zero_f, displayValue_hundred_f, ?_, ?_⟩
  · unfold send_temperature
    rw [hd]
    exact writeStep_trace (wb (sendReport temp_celsius unit))
      (sendReport temp_celsius unit) s
  · intro hf
    rw [convertTemp, if_pos hf]
  · intro hf
    rw [convertTemp, if_neg hf]
  · intro hc
    subst hc
    rw [convertTemp, if_neg (by decide)]
  · intro h
    rw [displayValue, clamp212]
    omega
  · intro h
    rw [displayValue, clamp212]
    omega

/-- Witness: C4 instantiated on an open controller at 0 °C in Fahrenheit
mode, with a write behaviour returning 64 bytes. -/
theorem send_temperature_conversion_witness :
    (send_temperature (fun _ => WriteOutcome.returns 64)
        ⟨some 0, some 0, some 0⟩ 0 "f").2.1 =
      [buildDisplayReport (clamp212 (pyRound (convertTemp 0 "f")))] ∧
    (strLower "f" = ['f'] → convertTemp 0 "f" = 0 * 9 / 5 + 32) ∧
    (strLower "f" ≠ ['f'] → convertTemp 0 "f" = 0) ∧
    ("f" = "c" → convertTemp 0 "f" = 0) ∧
    displayValue 0 "f" = 32 ∧
    displayValue 100 "f" = 212 ∧
    (212 < pyRound (convertTemp 0 "f") → displayValue 0 "f" = 212) ∧
    (pyRound (convertTemp 0 "f") < 0 → displayValue 0 "f" = 0) :=
  send_temperature_conversion (fun _ => WriteOutcome.returns 64)
    ⟨some 0, some 0, some 0⟩ (by simp) 0 "f"

/-! ## Theorems: not-connected contract (claim C8) -/

/-- C8: with no open handle, `send_temperature` and `blank_display` return
`False`, pass nothing to `device.write`, and leave the controller state as
it was; the model is a total function, reflecting that neither method lets
an exception escape to the caller. -/
theorem not_connected_fails (wb : List ℕ → WriteOutcome) (s : Controller)
    (hs : s.device = none) (temp_celsius : ℚ) (unit : String) :
    send_temperature wb s temp_celsius unit = (false, [], s) ∧
    blank_display wb s = (false, [], s) := by
  constructor
  · unfold send_temperature
    rw [hs]
  · unfold blank_display
    rw [hs]

/-- Witness: the not-connected contract on a freshly initialised controller,
with a write behaviour that would raise if it were ever consulted. -/
theorem not_connected_fails_witness :
    send_temperature (fun _ => WriteOutcome.raises) initController 0 "c" =
      (false, [], initController) ∧
    blank_display (fun _ => WriteOutcome.raises) initController =
      (false, [], initController) :=
  not_connected_fails (fun _ => WriteOutcome.raises) initController rfl 0 "c"

/-! ## Theorems: controller field coherence (claim C9) -/

theorem writeStep_state (w : WriteOutcome) (r : List ℕ) (s : Controller) :
    (match w with
     | WriteOutcome.raises => (false, [r], s)
     | WriteOutcome.returns n => (decide (0 < n), [r], s)).2.2 = s := by
  cases w <;> rfl

/-- C9: the fields `device`, `interface_number`, `path` are coherent (all
`None` or all set) initially and after every operation; `open` sets all
three exactly on success (to the validated candidate's values, with the
handle modelled by its path) and leaves them untouched on failure; `close`
resets all three to `None` and is a no-op on a closed instance;
`send_temperature` and `blank_display` never change them. -/
theorem controller_fields_coherent (beh : HidBeh)
    (wb : List ℕ → WriteOutcome) (devices : List Candidate) (s : Controller)
    (hs : coherent s) (temp_celsius : ℚ) (unit : String) :
    coherent initController ∧
    coherent (openController beh devices s).1 ∧
    ((openController beh devices s).2 = true →
      ∃ i p, (openModel beh devices).1 = OpenResult.connected i p ∧
        (openController beh devices s).1 = ⟨some p, some i, some p⟩) ∧
    ((openController beh devices s).2 = false →
      (openController beh devices s).1 = s) ∧
    coherent (closeController s) ∧
    closeController (closeController s) = closeController s ∧
    (s.device = none → closeController s = s) ∧
    (s.device ≠ none → closeController s = initController) ∧
    (send_temperature wb s temp_celsius unit).2.2 = s ∧
    (blank_display wb s).2.2 = s := by
  have hinit : coherent initController := Or.inl ⟨rfl, rfl, rfl⟩
  refine ⟨hinit, ?_, ?_, ?_, ?_, ?_, ?_, ?_, ?_, ?_⟩
  · unfold openController
    cases hr : (openModel beh devices).1 with
    | connected i p => exact Or.inr ⟨by simp, by simp, by simp⟩
    | deviceNotFound => exact hs
    | noWorking e => exact hs
  · unfold openController
    cases hr : (openModel beh devices).1 with
    | connected i p =>
      intro _
      exact ⟨i, p, rfl, rfl⟩
    | deviceNotFound => intro h; cases h
    | noWorking e => intro h; cases h
  · unfold openController
    cases hr : (openModel beh devices).1 with
    | connected i p => intro h; cases h
    | deviceNotFound => intro _; rfl
    | noWorking e => intro _; rfl
  · unfold closeController
    cases hd : s.device with
    | none => exact hs
    | some d => exact Or.inl ⟨rfl, rfl, rfl⟩
  · unfold closeController
    cases hd : s.device with
    | none => rw [hd]
    | some d => rfl
  · intro hd
    unfold closeController
    rw [hd]
  · intro hd
    obtain ⟨d, hd'⟩ := Option.ne_none_iff_exists'.1 hd
    unfold closeController
    rw [hd']
    rfl
  · unfold send_temperature
    cases hd : s.device with
    | none => rfl
    | some d =>
      exact writeStep_state (wb (sendReport temp_celsius unit))
        (sendReport temp_celsius unit) s
  · unfold blank_display
    cases hd : s.device with
    | none => rfl
    | some d => exact writeStep_state (wb blankReport) blankReport s

/-- Witness: the coherence facts instantiated on a fresh controller with an
empty enumeration and inert HID behaviour. -/
theorem controller_fields_coherent_witness :
    coherent initController ∧ closeController initController = initController :=
  ⟨(controller_fields_coherent ⟨fun _ => false, fun _ _ => WriteOutcome.raises⟩
      (fun _ => WriteOutcome.returns 1) [] initController
      (Or.inl ⟨rfl, rfl, rfl⟩) 0 "c").1,
   (controller_fields_coherent ⟨fun _ => false, fun _ _ => WriteOutcome.raises⟩
      (fun _ => WriteOutcome.returns 1) [] initController
      (Or.inl ⟨rfl, rfl, rfl⟩) 0 "c").2.2.2.2.2.2.1 rfl⟩

/-! ## Theorems: the open protocol (claim C5) -/

theorem lastErrList_nil (beh : HidBeh) (le : Option OpenErr) :
    lastErrList beh [] le = le := rfl

theorem lastErrList_cons (beh : HidBeh) (c : Candidate) (rest : List Candidate)
    (le : Option OpenErr) :
    lastErrList beh (c :: rest) le =
      lastErrList beh rest
        (if validC c then
          match probeAttempt beh c with
          | some e => some e
          | none => le
        else le) := rfl

theorem succB_false_of_find?_none (beh : HidBeh) (c : Candidate)
    (rest : List Candidate) (h : (c :: rest).find? (succB beh) = none) :
    succB beh c = false ∧ rest.find? (succB beh) = none := by
  cases hsucc : succB beh c with
  | true => rw [List.find?_cons_of_pos _ hsucc] at h; cases h
  | false =>
    rw [List.find?_cons_of_neg _ (by simp [hsucc])] at h
    exact ⟨rfl, h⟩

theorem openGo_of_find?_none (beh : HidBeh) (cs : List Candidate)
    (le : Option OpenErr) (h : cs.find? (succB beh) = none) :
    openGo beh cs le = (.noWorking (lastErrList beh cs le), []) := by
  induction cs generalizing le with
  | nil => rfl
  | cons c rest ih =>
    obtain ⟨hsucc, hrest⟩ := succB_false_of_find?_none beh c rest h
    rcases hi : c.interface_number with _ | i
    · have hv : validC c = false := by simp [validC, hi]
      rw [show openGo beh (c :: rest) le = openGo beh rest le from by
        simp [openGo, hi]]
      rw [ih le hrest, lastErrList_cons, hv]
      simp
    · rcases hp : c.path with _ | p
      · have hv : validC c = false := by simp [validC, hi, hp]
        rw [show openGo beh (c :: rest) le = openGo beh rest le from by
          simp [openGo, hi, hp]]
        rw [ih le hrest, lastErrList_cons, hv]
        simp
      · have hv : validC c = true := by simp [validC, hi, hp]
        have hpe : ∃ e, probeAttempt beh c = some e := by
          rw [succB, hv] at hsucc
          simp only [Bool.true_and] at hsucc
          cases hq : probeAttempt beh c with
          | none => rw [hq] at hsucc; cases hsucc
          | some e => exact ⟨e, rfl⟩
        obtain ⟨e, hpe⟩ := hpe
        rw [show openGo beh (c :: rest) le = openGo beh rest (some e) from by
          simp [openGo, hi, hp, hpe]]
        rw [ih (some e) hrest, lastErrList_cons, hv]
        simp [hpe]

theorem openGo_of_find?_some (beh : HidBeh) (cs : List Candidate)
    (le : Option OpenErr) (c : Candidate)
    (h : cs.find? (succB beh) = some c) :
    ∃ i p, c.interface_number = some i ∧ c.path = some p ∧
      openGo beh cs le = (.connected i p, [p]) := by
  induction cs generalizing le with
  | nil => cases h
  | cons c' rest ih =>
    cases hsucc : succB beh c' with
    | true =>
      rw [List.find?_cons_of_pos _ hsucc] at h
      have hce : c' = c := Option.some.inj h
      subst hce
      rw [succB, Bool.and_eq_true] at hsucc
      obtain ⟨hv, hn⟩ := hsucc
      rw [validC, Bool.and_eq_true] at hv
      obtain ⟨hvi, hvp⟩ := hv
      obtain ⟨i, hi⟩ := Option.isSome_iff_exists.1 hvi
      obtain ⟨p, hp⟩ := Option.isSome_iff_exists.1 hvp
      have hpe : probeAttempt beh c' = none := Option.isNone_iff_eq_none.1 hn
      refine ⟨i, p, hi, hp, ?_⟩
      simp [openGo, hi, hp, hpe]
    | false =>
      rw [List.find?_cons_of_neg _ (by simp [hsucc])] at h
      rcases hi : c'.interface_number with _ | i
      · rw [show openGo beh (c' :: rest) le = openGo beh rest le from by
          simp [openGo, hi]]
        exact ih le h
      · rcases hp : c'.path with _ | p
        · rw [show openGo beh (c' :: rest) le = openGo beh rest le from by
            simp [openGo, hi, hp]]
          exact ih le h
        · have hv : validC c' = true := by simp [validC, hi, hp]
          have hpe : ∃ e, probeAttempt beh c' = some e := by
            rw [succB, hv] at hsucc
            simp only [Bool.true_and] at hsucc
            cases hq : probeAttempt beh c' with
            | none => rw [hq] at hsucc; cases hsucc
            | some e => exact ⟨e, rfl⟩
          obtain ⟨e, hpe⟩ := hpe
          rw [show openGo beh (c' :: rest) le = openGo beh rest (some e) from by
            simp [openGo, hi, hp, hpe]]
          exact ih (some e) h

/-- C5: `open` fails immediately with the distinct "device not found"
outcome when enumeration is empty; otherwise it walks the ordered
candidates, succeeds exactly on the first candidate whose open and
validating probe write (of the value-0 report, with a positive byte count)
succeed — retaining that candidate's interface_number and path, with only
that handle left open — and, when no candidate succeeds, reports the
no-working-interface failure carrying the last recorded per-candidate
error, with no handle left open. -/
theorem open_spec (beh : HidBeh) (devices : List Candidate) :
    (devices = [] → openModel beh devices = (.deviceNotFound, [])) ∧
    (devices ≠ [] →
      (∀ c, (sortedCandidates (uniqueDevices devices)).find? (succB beh) =
          some c →
        ∃ i p, c.interface_number = some i ∧ c.path = some p ∧
          openModel beh devices = (.connected i p, [p])) ∧
      ((sortedCandidates (uniqueDevices devices)).find? (succB beh) = none →
        openModel beh devices =
          (.noWorking
            (lastErrList beh (sortedCandidates (uniqueDevices devices)) none),
           []))) := by
  constructor
  · intro h
    simp [openModel, h]
  · intro h
    constructor
    · intro c hc
      obtain ⟨i, p, hi, hp, hgo⟩ := openGo_of_find?_some beh _ none c hc
      refine ⟨i, p, hi, hp, ?_⟩
      rw [openModel, if_neg h]
      exact hgo
    · intro hc
      rw [openModel, if_neg h]
      exact openGo_of_find?_none beh _ none hc

/-- Witness: with a single valid candidate and a HID layer whose open and
probe write both succeed, `open` connects to that candidate's interface
number and path. -/
theorem open_spec_witness :
    ∃ i p, candA.interface_number = some i ∧ candA.path = some p ∧
      openModel ⟨fun _ => true, fun _ _ => WriteOutcome.returns 64⟩ [candA] =
        (OpenResult.connected i p, [p]) :=
  ((open_spec ⟨fun _ => true, fun _ _ => WriteOutcome.returns 64⟩ [candA]).2
      (by decide)).1 candA (by decide)

/-! ## Theorems: sensor lookup (claim C10) -/

theorem find?_eq_some_append {α : Type} (p : α → Bool) (l : List α) (a : α) :
    l.find? p = some a ↔
      ∃ pre post, l = pre ++ a :: post ∧
        (∀ x ∈ pre, p x = false) ∧ p a = true := by
  induction l with
  | nil => simp
  | cons b t ih =>
    cases hb : p b with
    | true =>
      rw [List.find?_cons_of_pos _ hb]
      constructor
      · intro h
        have hba : b = a := Option.some.inj h
        subst hba
        exact ⟨[], t, rfl, by simp, hb⟩
      · rintro ⟨pre, post, heq, hpre, hpa⟩
        cases pre with
        | nil =>
          simp only [List.nil_append] at heq
          obtain ⟨rfl, rfl⟩ := List.cons.inj heq
          rfl
        | cons q qs =>
          simp only [List.cons_append] at heq
          obtain ⟨rfl, hteq⟩ := List.cons.inj heq
          have hq := hpre b (List.mem_cons_self _ _)
          simp [hb] at hq
    | false =>
      rw [List.find?_cons_of_neg _ (by simp [hb]), ih]
      constructor
      · rintro ⟨pre, post, heq, hpre, hpa⟩
        refine ⟨b :: pre, post, by rw [heq, List.cons_append], ?_, hpa⟩
        intro x hx
        rcases List.mem_cons.1 hx with rfl | hx'
        · exact hb
        · exact hpre x hx'
      · rintro ⟨pre, post, heq, hpre, hpa⟩
        cases pre with
        | nil =>
          simp only [List.nil_append] at heq
          obtain ⟨rfl, rfl⟩ := List.cons.inj heq
          rw [hb] at hpa
          cases hpa
        | cons q qs =>
          simp only [List.cons_append] at heq
          obtain ⟨rfl, hteq⟩ := List.cons.inj heq
          exact ⟨qs, post, hteq,
            fun x hx => hpre x (List.mem_cons_of_mem _ hx), hpa⟩

theorem matchPred_iff (substring : String) (q : String × List Reading) :
    ((sensorMatches substring q.1 && !q.2.isEmpty) = true) ↔
      (sensorMatches substring q.1 = true ∧ q.2 ≠ []) := by
  rw [Bool.and_eq_true]
  simp [List.isEmpty_iff]

theorem find_sensor_eq_find? (sensors : List (String × List Reading))
    (substring : String) :
    find_sensor_by_substring sensors substring =
      (sensors.find?
        (fun q => sensorMatches substring q.1 && !q.2.isEmpty)).map
        (fun q => (q.1, (q.2.headD ⟨0⟩).current)) := by
  induction sensors with
  | nil => rfl
  | cons q rest ih =>
    obtain ⟨name, lst⟩ := q
    cases lst with
    | nil =>
      rw [List.find?_cons_of_neg _ (by simp)]
      exact ih
    | cons r t =>
      cases hm : sensorMatches substring name with
      | true =>
        rw [List.find?_cons_of_pos _ (by simp [hm])]
        simp [find_sensor_by_substring, hm]
      | false =>
        rw [List.find?_cons_of_neg _ (by simp [hm])]
        rw [show find_sensor_by_substring ((name, r :: t) :: rest) substring =
            find_sensor_by_substring rest substring from by
          simp [find_sensor_by_substring, hm]]
        exact ih

/-- C10: `find_sensor_by_substring` returns the first group, in mapping
iteration order, whose name contains the substring case-insensitively AND
whose reading list is non-empty, paired with its first entry's current
value; a matching group with an empty reading list is skipped and the scan
continues; the result is `None` exactly when no non-empty matching group
exists. -/
theorem find_sensor_spec (sensors : List (String × List Reading))
    (substring : String) :
    (find_sensor_by_substring sensors substring = none ↔
      ∀ q ∈ sensors, ¬(sensorMatches substring q.1 = true ∧ q.2 ≠ [])) ∧
    (∀ n v, find_sensor_by_substring sensors substring = some (n, v) ↔
      ∃ pre lst post, sensors = pre ++ (n, lst) :: post ∧
        (∀ q ∈ pre, ¬(sensorMatches substring q.1 = true ∧ q.2 ≠ [])) ∧
        sensorMatches substring n = true ∧
        (∃ r t, lst = r :: t ∧ v = r.current)) ∧
    (∀ n rest, sensorMatches substring n = true →
      find_sensor_by_substring ((n, ([] : List Reading)) :: rest) substring =
        find_sensor_by_substring rest substring) := by
  refine ⟨?_, ?_, ?_⟩
  · rw [find_sensor_eq_find?, Option.map_eq_none', List.find?_eq_none]
    constructor
    · intro h q hq
      intro hc
      have := h q hq
      exact this ((matchPred_iff substring q).2 hc)
    · intro h q hq
      intro hc
      exact h q hq ((matchPred_iff substring q).1 hc)
  · intro n v
    rw [find_sensor_eq_find?, Option.map_eq_some']
    constructor
    · rintro ⟨q, hfind, hmap⟩
      obtain ⟨pre, post, heq, hpre, hpa⟩ := (find?_eq_some_append _ _ _).1 hfind
      obtain ⟨name, lst⟩ := q
      obtain ⟨hmatch, hne⟩ := (matchPred_iff substring (name, lst)).1 hpa
      cases lst with
      | nil => exact absurd rfl hne
      | cons r t =>
        obtain ⟨rfl, rfl⟩ : name = n ∧ r.current = v := Prod.mk.inj hmap
        refine ⟨pre, r :: t, post, heq, ?_, hmatch, r, t, rfl, rfl⟩
        intro q hq hc
        have := hpre q hq
        rw [(matchPred_iff substring q).2 hc] at this
        cases this
    · rintro ⟨pre, lst, post, heq, hpre, hmatch, r, t, rfl, rfl⟩
      refine ⟨(n, r :: t), ?_, rfl⟩
      refine (find?_eq_some_append _ _ _).2 ⟨pre, post, heq, ?_, ?_⟩
      · intro x hx
        cases hpx : (sensorMatches substring x.1 && !x.2.isEmpty) with
        | false => rfl
        | true => exact absurd ((matchPred_iff substring x).1 hpx) (hpre x hx)
      · exact (matchPred_iff substring (n, r :: t)).2 ⟨hmatch, by simp⟩
  · intro n rest h
    rfl

/-- Witness: a matching group with an empty reading list is skipped, so the
scan falls through to the later non-empty group. -/
theorem find_sensor_spec_witness :
    find_sensor_by_substring
        [("k10temp", ([] : List Reading)), ("k10temp", [⟨42⟩])] "k10" =
      find_sensor_by_substring [("k10temp", [⟨42⟩])] "k10" :=
  (find_sensor_spec [("k10temp", ([] : List Reading)), ("k10temp", [⟨42⟩])]
      "k10").2.2 "k10temp" [("k10temp", [⟨42⟩])] (by decide)

/-! ## Theorems: keepalive timing in the display loop (claim C2) -/

theorem displayTick_unmatched_early (substring unit : String)
    (sensors : List (String × List Reading)) (now last_keepalive : ℚ)
    (hmiss : find_sensor_by_substring sensors substring = none)
    (hlt : now - last_keepalive < KEEPALIVE_INTERVAL) :
    displayTick substring unit (now, sensors) last_keepalive =
      ([], last_keepalive) := by
  unfold displayTick
  rw [show find_sensor_by_substring ((now, sensors) : ℚ ×
      List (String × List Reading)).2 substring = none from hmiss]
  show (if KEEPALIVE_INTERVAL ≤ now - last_keepalive then
      ([sendReport 0 unit], now) else ([], last_keepalive)) =
    ([], last_keepalive)
  rw [if_neg (not_le.2 hlt)]

theorem displayTick_unmatched_due (substring unit : String)
    (sensors : List (String × List Reading)) (now last_keepalive : ℚ)
    (hmiss : find_sensor_by_substring sensors substring = none)
    (hge : KEEPALIVE_INTERVAL ≤ now - last_keepalive) :
    displayTick substring unit (now, sensors) last_keepalive =
      ([sendReport 0 unit], now) := by
  unfold displayTick
  rw [show find_sensor_by_substring ((now, sensors) : ℚ ×
      List (String × List Reading)).2 substring = none from hmiss]
  show (if KEEPALIVE_INTERVAL ≤ now - last_keepalive then
      ([sendReport 0 unit], now) else ([], last_keepalive)) =
    ([sendReport 0 unit], now)
  rw [if_pos hge]

theorem sendReport_zero_c : sendReport 0 "c" = buildDisplayReport 0 := by
  rw [sendReport]
  have h1 : convertTemp 0 "c" = 0 := by
    rw [convertTemp, if_neg (by decide)]
  have h2 : pyRound 0 = 0 := by norm_num [pyRound]
  rw [displayValue, h1, h2]
  rfl

theorem sendReport_zero_f : sendReport 0 "f" = buildDisplayReport 32 := by
  rw [sendReport, displayValue_zero_f]

/-- C2 as corrected: on an unmatched tick nothing is written unless the
elapsed time since the last keepalive reaches `KEEPALIVE_INTERVAL`; when it
does, the loop writes the `send_temperature(0, unit)` report — which encodes
0 in Celsius mode but 32 in Fahrenheit mode — and resets the timer; with a
1 s poll and the 2 s keepalive interval, 5 consecutive unmatched ticks
produce exactly 2 keepalive writes (at ticks 2 and 4). -/
theorem display_loop_keepalive (substring unit : String)
    (sensors : List (String × List Reading)) (now last_keepalive : ℚ)
    (hmiss : find_sensor_by_substring sensors substring = none) :
    (now - last_keepalive < KEEPALIVE_INTERVAL →
      displayTick substring unit (now, sensors) last_keepalive =
        ([], last_keepalive)) ∧
    (KEEPALIVE_INTERVAL ≤ now - last_keepalive →
      displayTick substring unit (now, sensors) last_keepalive =
        ([sendReport 0 unit], now)) ∧
    sendReport 0 "c" = buildDisplayReport 0 ∧
    sendReport 0 "f" = buildDisplayReport 32 ∧
    (runTicks substring "c" [(0, []), (1, []), (2, []), (3, []), (4, [])] 0).1 =
      [sendReport 0 "c", sendReport 0 "c"] := by
  refine ⟨?_, ?_, sendReport_zero_c, sendReport_zero_f, ?_⟩
  · intro hlt
    exact displayTick_unmatched_early substring unit sensors now last_keepalive
      hmiss hlt
  · intro hge
    exact displayTick_unmatched_due substring unit sensors now last_keepalive
      hmiss hge
  · have e0 := displayTick_unmatched_early substring "c" [] 0 0 rfl
      (by norm_num [KEEPALIVE_INTERVAL])
    have e1 := displayTick_unmatched_early substring "c" [] 1 0 rfl
      (by norm_num [KEEPALIVE_INTERVAL])
    have e2 := displayTick_unmatched_due substring "c" [] 2 0 rfl
      (by norm_num [KEEPALIVE_INTERVAL])
    have e3 := displayTick_unmatched_early substring "c" [] 3 2 rfl
      (by norm_num [KEEPALIVE_INTERVAL])
    have e4 := displayTick_unmatched_due substring "c" [] 4 2 rfl
      (by norm_num [KEEPALIVE_INTERVAL])
    simp [runTicks, e0, e1, e2, e3, e4]

/-- Witness: an unmatched tick at time 2 with the timer at 0 produces
exactly the keepalive write and resets the timer to 2. -/
theorem display_loop_keepalive_witness :
    displayTick "k10temp" "c" (2, []) 0 = ([sendReport 0 "c"], 2) :=
  (display_loop_keepalive "k10temp" "c" [] 2 0 rfl).2.1
    (by norm_num [KEEPALIVE_INTERVAL])

/-- Counterexample to C2 as stated: in Fahrenheit mode the keepalive write
produced on a due unmatched tick is the report for 32 (0 °C converted to
Fahrenheit), which is not a report encoding value 0. -/
theorem keepalive_value0_counterexample :
    (runTicks "k10temp" "f" [(2, [])] 0).1 = [buildDisplayReport 32] ∧
    buildDisplayReport 32 ≠ buildDisplayReport 0 := by
  constructor
  · have e := displayTick_unmatched_due "k10temp" "f" [] 2 0 rfl
      (by norm_num [KEEPALIVE_INTERVAL])
    simp [runTicks, e, sendReport_zero_f]
  · decide

end Ocypus
